import Mathlib

/-
Verification development for mdmp4rev (src/main.rs).

The program is a thin CLI around an external `ffmpeg` executable.  We give a
shallow embedding of its logic:

* Filesystem paths are Unix-style byte sequences, modelled as `List Nat`
  (each element a byte value < 256).  The Rust `Path`/`PathBuf` operations
  used by the program (`file_stem`, `extension`, `with_file_name`,
  `set_extension`) are translated from the Rust standard library's
  documented behaviour on Unix: components are separated by `/` (byte 47),
  empty components and non-leading `.` components are ignored, and the
  stem/extension split happens at the final `.` (byte 46) of the file name.
* `OsStr::to_str` is UTF-8 validation, modelled by a byte-level UTF-8
  decoder; `String::from_utf8_lossy` is modelled by the lossy variant that
  replaces each maximal invalid subpart with U+FFFD.
* The `CommandRunner` trait is modelled by a function from a program name
  and argument list to `Except Nat Output` (`Nat` standing in for the
  payload of an OS-level `std::io::Error`).  `reverse_video` and
  `run_with_reverser` return, besides their result, the ordered list of
  runner invocations they performed; a Rust panic (from `unwrap` on `None`
  or an out-of-bounds index) is an explicit `panicked` outcome.
-/

/-! ### Byte-list splitting and joining -/

/-- Split a byte list at every occurrence of `sep`, keeping empty chunks
(like Rust's `split` on slices): `splitBy 47 "a//b" = ["a", "", "b"]`. -/
def splitBy (sep : Nat) : List Nat → List (List Nat)
  | [] => [[]]
  | b :: rest =>
    let r := splitBy sep rest
    if b = sep then [] :: r
    else (b :: r.headD []) :: r.tail

/-- Join chunks with a separator byte; left inverse of `splitBy` on its image. -/
def joinBy (sep : Nat) : List (List Nat) → List Nat
  | [] => []
  | [p] => p
  | p :: ps => p ++ sep :: joinBy sep ps

/-! ### Rust `Path` model (Unix). -/

namespace RPath

/-- One parsed path component, as in `std::path::Component` (no Windows
prefixes on Unix). -/
inductive PComp where
  | rootDir
  | curDir
  | parentDir
  | normal (name : List Nat)
deriving DecidableEq

/-- `Path::has_root`: the path begins with a separator. -/
def hasRoot (p : List Nat) : Bool := p.head? = some 47

/-- Classify one `/`-separated piece: empty pieces and `.` pieces are
dropped by the components iterator, `..` is `ParentDir`, the rest `Normal`. -/
def pieceToComp (piece : List Nat) : Option PComp :=
  if piece = [] ∨ piece = [46] then none
  else if piece = [46, 46] then some .parentDir
  else some (.normal piece)

/-- `Path::components` on Unix: a leading `/` gives `RootDir`, a leading
`.` piece gives `CurDir`, and every other nonempty, non-`.` piece is kept. -/
def parseComponents (p : List Nat) : List PComp :=
  (if hasRoot p then [PComp.rootDir] else []) ++
    (if (splitBy 47 p).head? = some [46] then [PComp.curDir] else []) ++
    (splitBy 47 p).filterMap pieceToComp

/-- Byte rendering of a single non-root component. -/
def compBytes : PComp → List Nat
  | .rootDir => []
  | .curDir => [46]
  | .parentDir => [46, 46]
  | .normal n => n

/-- Render a component list back to path bytes (used for `parent`, which in
Rust is a prefix slice of the original path spanning the same components). -/
def renderComps : List PComp → List Nat
  | .rootDir :: rest => 47 :: joinBy 47 (rest.map compBytes)
  | cs => joinBy 47 (cs.map compBytes)

/-- `Path::file_name`: the last component when it is a `Normal` one. -/
def file_name (p : List Nat) : Option (List Nat) :=
  match (parseComponents p).getLast? with
  | some (.normal n) => some n
  | _ => none

/-- `Path::parent`: all components but the last, when a last one exists and
is not the root. -/
def parent (p : List Nat) : Option (List Nat) :=
  match (parseComponents p).getLast? with
  | some (.normal _) => some (renderComps (parseComponents p).dropLast)
  | some .curDir => some (renderComps (parseComponents p).dropLast)
  | some .parentDir => some (renderComps (parseComponents p).dropLast)
  | _ => none

/-- The standard library's `rsplit_file_at_dot` on a file name: split at the
final `.`; a file name of `..` or one whose only `.` is leading has no
extension. Returns `(before, after)` as in the Rust source. -/
def rsplitFileAtDot (f : List Nat) : Option (List Nat) × Option (List Nat) :=
  if f = [46, 46] then (some f, none)
  else
    let pieces := splitBy 46 f
    if pieces.length ≤ 1 then (none, some f)
    else
      let before := joinBy 46 pieces.dropLast
      let after := (pieces.getLast?).getD []
      if before = [] then (some f, none) else (some before, some after)

/-- `Path::file_stem`: `before.or(after)` of the dot split of the file name. -/
def file_stem (p : List Nat) : Option (List Nat) :=
  (file_name p).bind fun f => ((rsplitFileAtDot f).1).or ((rsplitFileAtDot f).2)

/-- `Path::extension`: `before.and(after)` of the dot split of the file name. -/
def extension (p : List Nat) : Option (List Nat) :=
  (file_name p).bind fun f =>
    match rsplitFileAtDot f with
    | (some _, after) => after
    | (none, _) => none

/-- `PathBuf::push` of a relative, nonempty name: append, inserting a `/`
unless the buffer is empty or already ends with one.  An absolute name
replaces the whole buffer. -/
def push (p name : List Nat) : List Nat :=
  if hasRoot name then name
  else if p = [] then name
  else if p.getLast? = some 47 then p ++ name
  else p ++ 47 :: name

/-- `Path::with_file_name`: truncate to the parent when a file name exists,
then push the new name. -/
def with_file_name (p name : List Nat) : List Nat :=
  match file_name p with
  | some _ => push ((parent p).getD p) name
  | none => push p name

/-- Drop trailing separators and trailing `.` components from the raw bytes,
so that a path with a file name ends exactly with that file name.  This is
the byte-level effect of `PathBuf::set_extension` truncating the buffer to
the end of the stem slice. -/
def trimTailRev : List Nat → List Nat
  | [] => []
  | b :: rest =>
    if b = 47 then trimTailRev rest
    else if b = 46 ∧ (rest.head? = some 47 ∨ rest = []) then trimTailRev rest
    else b :: rest

/-- Forward-direction wrapper for `trimTailRev`. -/
def trimTail (p : List Nat) : List Nat := (trimTailRev p.reverse).reverse

/-- `PathBuf::set_extension`: no-op without a file stem; otherwise truncate
the buffer right after the stem and append `.ext` when `ext` is nonempty. -/
def set_extension (p ext : List Nat) : List Nat :=
  match file_name p with
  | none => p
  | some f =>
    let stem := ((rsplitFileAtDot f).1).getD (((rsplitFileAtDot f).2).getD f)
    let base := (trimTail p).take ((trimTail p).length - (f.length - stem.length))
    base ++ (if ext = [] then [] else 46 :: ext)

end RPath

/-! ### UTF-8 encoding and decoding -/

/-- State of the byte-at-a-time UTF-8 validator: either at a character
boundary, or expecting `count` more continuation bytes, the next one
restricted to `[lo, hi]`, with `acc` the code point bits read so far. -/
inductive Utf8State where
  | start
  | need (count lo hi acc : Nat)
deriving DecidableEq

/-- One step of UTF-8 decoding, per the table in RFC 3629 (as validated by
Rust's `str::from_utf8`): rejects overlong forms, surrogates and
code points above U+10FFFF. -/
def utf8Step : Utf8State → Nat → Option (Utf8State × Option Char)
  | .start, b =>
    if b < 128 then some (.start, some (Char.ofNat b))
    else if b < 194 then none
    else if b < 224 then some (.need 1 128 191 (b - 192), none)
    else if b = 224 then some (.need 2 160 191 0, none)
    else if b = 237 then some (.need 2 128 159 13, none)
    else if b < 240 then some (.need 2 128 191 (b - 224), none)
    else if b = 240 then some (.need 3 144 191 0, none)
    else if b < 244 then some (.need 3 128 191 (b - 240), none)
    else if b = 244 then some (.need 3 128 143 4, none)
    else none
  | .need c lo hi acc, b =>
    if lo ≤ b ∧ b ≤ hi then
      if c = 1 then some (.start, some (Char.ofNat (acc * 64 + (b - 128))))
      else some (.need (c - 1) 128 191 (acc * 64 + (b - 128)), none)
    else none

/-- Strict UTF-8 decoding of a byte list (the model of `OsStr::to_str` /
`str::from_utf8`): `none` on any invalid or incomplete sequence. -/
def utf8DecodeLoop : Utf8State → List Nat → Option (List Char)
  | .start, [] => some []
  | .need _ _ _ _, [] => none
  | s, b :: rest =>
    match utf8Step s b with
    | none => none
    | some (s2, none) => utf8DecodeLoop s2 rest
    | some (s2, some c) => (utf8DecodeLoop s2 rest).map fun cs => c :: cs

/-- Strict UTF-8 decoding from the initial state. -/
def utf8Decode (l : List Nat) : Option (List Char) := utf8DecodeLoop .start l

/-- The replacement character U+FFFD used by lossy decoding. -/
def repChar : Char := Char.ofNat 0xFFFD

/-- `String::from_utf8_lossy`: like strict decoding, but each maximal
invalid subpart is replaced by U+FFFD and decoding restarts at the
offending byte.  A failed continuation byte is re-examined as a potential
new character start. -/
def utf8LossyLoop : Utf8State → List Nat → List Char
  | .start, [] => []
  | .need _ _ _ _, [] => [repChar]
  | s, b :: rest =>
    match utf8Step s b with
    | some (s2, none) => utf8LossyLoop s2 rest
    | some (s2, some c) => c :: utf8LossyLoop s2 rest
    | none =>
      match s, utf8Step .start b with
      | .start, _ => repChar :: utf8LossyLoop .start rest
      | .need _ _ _ _, some (s2, none) => repChar :: utf8LossyLoop s2 rest
      | .need _ _ _ _, some (s2, some c) => repChar :: c :: utf8LossyLoop s2 rest
      | .need _ _ _ _, none => repChar :: repChar :: utf8LossyLoop .start rest

/-- Lossy UTF-8 decoding from the initial state, as a Lean `String`. -/
def utf8Lossy (l : List Nat) : String := String.mk (utf8LossyLoop .start l)

/-- `OsStr::to_str`, modelled on path bytes: strict UTF-8 decoding. -/
def to_str (p : List Nat) : Option String := (utf8Decode p).map String.mk

/-- UTF-8 encoding of one character. -/
def charUtf8 (c : Char) : List Nat :=
  let n := c.toNat
  if n < 128 then [n]
  else if n < 2048 then [192 + n / 64, 128 + n % 64]
  else if n < 65536 then [224 + n / 4096, 128 + (n / 64) % 64, 128 + n % 64]
  else [240 + n / 262144, 128 + (n / 4096) % 64, 128 + (n / 64) % 64, 128 + n % 64]

/-- UTF-8 encoding of a string, giving the byte-list form of a Rust
`String` (e.g. a command-line argument) used as a path. -/
def strBytes (s : String) : List Nat :=
  s.data.foldr (fun c acc => charUtf8 c ++ acc) []

/-! ### The program model -/

/-- `std::process::Output` as far as the program reads it: the success bit
of the exit status plus captured stdout/stderr bytes. -/
structure Output where
  status_success : Bool
  stdout : List Nat
  stderr : List Nat
deriving DecidableEq

/-- One recorded invocation of the command runner. -/
structure Call where
  program : String
  args : List String
deriving DecidableEq

/-- The `CommandRunner` trait: given a program and arguments, either an
OS-level spawn failure (`Except.error`, with `Nat` modelling the payload of
the `std::io::Error`) or the process `Output`. -/
def RunnerFn : Type := String → List String → Except Nat Output

/-- `VideoError` (src/main.rs lines 5-15). -/
inductive VideoError where
  | FFmpegNotFound
  | InvalidInput (msg : String)
  | ProcessingError (msg : String)
  | IoError (code : Nat)
deriving DecidableEq

/-- The `Display` messages of `VideoError` from its `thiserror` attributes;
the inner `std::io::Error` display is abstracted as the decimal code. -/
def VideoError.display : VideoError → String
  | .FFmpegNotFound => "FFmpeg is not installed or not accessible"
  | .InvalidInput s => "Invalid input file path: " ++ s
  | .ProcessingError s => "Failed to process video: " ++ s
  | .IoError n => "IO error: " ++ toString n

/-- Result of one `reverse_video` call: a Rust `Ok`/`Err`, or a panic (the
`unwrap` calls on `Path::to_str`). -/
inductive Outcome where
  | ok (path : List Nat)
  | err (e : VideoError)
  | panicked
deriving DecidableEq

/-- `VideoReverser::check_ffmpeg` (lines 55-60): run `ffmpeg -version`; any
launch failure becomes `FFmpegNotFound`, any `Output` is accepted.  Also
returns the one recorded call. -/
def check_ffmpeg (runner : RunnerFn) : Except VideoError Unit × List Call :=
  match runner "ffmpeg" ["-version"] with
  | .ok _ => (.ok (), [⟨"ffmpeg", ["-version"]⟩])
  | .error _ => (.error .FFmpegNotFound, [⟨"ffmpeg", ["-version"]⟩])

/-- `VideoReverser::generate_output_filename` (lines 63-71): take the stem
(defaulting to empty), append `-rev` ([45,114,101,118]), replace the file
name, then set the original extension (defaulting to empty). -/
def generate_output_filename (input_path : List Nat) : List Nat :=
  let stem := (RPath.file_stem input_path).getD []
  let ext := (RPath.extension input_path).getD []
  let new_name := stem ++ [45, 114, 101, 118]
  let output_path := RPath.with_file_name input_path new_name
  RPath.set_extension output_path ext

/-- `VideoReverser::reverse_video` (lines 74-117).  `fs` models
`Path::exists`.  Returns the outcome together with the ordered list of
runner invocations.  The `to_str().unwrap()` calls on the input and output
paths are the `panicked` case. -/
def reverse_video (runner : RunnerFn) (fs : List Nat → Bool)
    (input_path : List Nat) : Outcome × List Call :=
  if fs input_path = false then
    (.err (.InvalidInput "Input file does not exist"), [])
  else if ((RPath.extension input_path).bind to_str) ≠ some "mp4" then
    (.err (.InvalidInput "Input file must be an MP4"), [])
  else
    match check_ffmpeg runner with
    | (.error e, calls) => (.err e, calls)
    | (.ok _, calls) =>
      let output_path := generate_output_filename input_path
      match to_str input_path, to_str output_path with
      | some inS, some outS =>
        let args := ["-i", inS, "-vf", "reverse", "-af", "areverse", "-y", outS]
        (match runner "ffmpeg" args with
         | .error e => (.err (.IoError e), calls ++ [⟨"ffmpeg", args⟩])
         | .ok result =>
           if result.status_success = false then
             (.err (.ProcessingError (utf8Lossy result.stderr)),
              calls ++ [⟨"ffmpeg", args⟩])
           else
             (.ok output_path, calls ++ [⟨"ffmpeg", args⟩]))
      | _, _ => (.panicked, calls)

/-- Result of one `run_with_reverser` call: `Ok(())`, an error whose
`to_string` is `msg`, or a panic (indexing `args[0]` on an empty vector). -/
inductive RunOutcome where
  | ok
  | err (msg : String)
  | panicked
deriving DecidableEq

/-- `run_with_reverser` (lines 377-392): with exactly two arguments, call
`reverse_video` on the second (a Rust `String`, hence its UTF-8 bytes as a
path); otherwise format the usage message with `args[0]`, which panics when
the vector is empty. -/
def run_with_reverser (runner : RunnerFn) (fs : List Nat → Bool)
    (args : List String) : RunOutcome × List Call :=
  match args with
  | [_, a1] =>
    (match reverse_video runner fs (strBytes a1) with
     | (.ok _, calls) => (.ok, calls)
     | (.err e, calls) => (.err (VideoError.display e), calls)
     | (.panicked, calls) => (.panicked, calls))
  | [] => (.panicked, [])
  | a0 :: _ => (.err ("Usage: " ++ a0 ++ " <input_mp4_file>"), [])

/-! ### Sanity checks of the model against the repository's unit tests -/

example : generate_output_filename (strBytes "test.mp4") = strBytes "test-rev.mp4" := by decide

example : generate_output_filename (strBytes "a/b/clip.mp4") = strBytes "a/b/clip-rev.mp4" := by
  decide

example : utf8Lossy (strBytes "Conversion failed") = "Conversion failed" := by decide

/-! ### Claim theorems -/

/-- C1: for an existing input whose extension is exactly `mp4`, when the
availability probe launches successfully and the transformation subprocess
(whose arguments require the input and derived output paths to be UTF-8
decodable, since the transformation ran) exits with success status,
`reverse_video` returns `Ok` of the derived output path and exactly two
runner invocations occur, in order: the probe `ffmpeg -version`, then the
transformation whose arguments include `-i <input>` and the output path. -/
theorem reverse_video_success_trace (runner : RunnerFn) (fs : List Nat → Bool)
    (input : List Nat) (probeOut res : Output) (inS outS : String)
    (hfs : fs input = true)
    (hext : (RPath.extension input).bind to_str = some "mp4")
    (hin : to_str input = some inS)
    (hout : to_str (generate_output_filename input) = some outS)
    (hprobe : runner "ffmpeg" ["-version"] = .ok probeOut)
    (hrun : runner "ffmpeg" ["-i", inS, "-vf", "reverse", "-af", "areverse", "-y", outS] = .ok res)
    (hsucc : res.status_success = true) :
    reverse_video runner fs input =
      (.ok (generate_output_filename input),
       [⟨"ffmpeg", ["-version"]⟩,
        ⟨"ffmpeg", ["-i", inS, "-vf", "reverse", "-af", "areverse", "-y", outS]⟩]) := by
  simp only [reverse_video, hfs, check_ffmpeg, hprobe, hext, hin, hout, hrun, hsucc]
  simp

/-- Witness for C1 at `test.mp4` with an always-succeeding runner. -/
theorem reverse_video_success_trace_witness :
    reverse_video (fun _ _ => Except.ok ⟨true, [], []⟩) (fun _ => true) (strBytes "test.mp4") =
      (.ok (generate_output_filename (strBytes "test.mp4")),
       [⟨"ffmpeg", ["-version"]⟩,
        ⟨"ffmpeg", ["-i", "test.mp4", "-vf", "reverse", "-af", "areverse", "-y", "test-rev.mp4"]⟩]) ∧
    generate_output_filename (strBytes "test.mp4") = strBytes "test-rev.mp4" :=
  ⟨reverse_video_success_trace (fun _ _ => Except.ok ⟨true, [], []⟩) (fun _ => true)
      (strBytes "test.mp4") ⟨true, [], []⟩ ⟨true, [], []⟩ "test.mp4" "test-rev.mp4"
      rfl (by decide) (by decide) (by decide) rfl rfl rfl,
   by decide⟩

/-- C3: for an existing input whose extension does not UTF-8 decode to
exactly `mp4` (case-sensitively, so `MP4` and extension-less paths are
rejected), `reverse_video` returns `InvalidInput("Input file must be an
MP4")` and performs no runner invocation. -/
theorem reverse_video_rejects_non_mp4 (runner : RunnerFn) (fs : List Nat → Bool)
    (input : List Nat)
    (hfs : fs input = true)
    (hext : (RPath.extension input).bind to_str ≠ some "mp4") :
    reverse_video runner fs input =
      (.err (.InvalidInput "Input file must be an MP4"), []) := by
  simp [reverse_video, hfs, hext]

/-- Witness for C3 at the uppercase-extension path `test.MP4`. -/
theorem reverse_video_rejects_non_mp4_witness :
    reverse_video (fun _ _ => Except.ok ⟨true, [], []⟩) (fun _ => true) (strBytes "test.MP4") =
      (.err (.InvalidInput "Input file must be an MP4"), []) ∧
    (RPath.extension (strBytes "test.MP4")).bind to_str = some "MP4" :=
  ⟨reverse_video_rejects_non_mp4 (fun _ _ => Except.ok ⟨true, [], []⟩) (fun _ => true)
      (strBytes "test.MP4") rfl (by decide),
   by decide⟩

/-- C4: for a nonexistent input path, `reverse_video` returns
`InvalidInput("Input file does not exist")` with no runner invocation; the
theorem holds for every path, in particular ones that would also fail the
extension check, so the existence check comes first. -/
theorem reverse_video_rejects_missing (runner : RunnerFn) (fs : List Nat → Bool)
    (input : List Nat) (hfs : fs input = false) :
    reverse_video runner fs input =
      (.err (.InvalidInput "Input file does not exist"), []) := by
  simp [reverse_video, hfs]

/-- Witness for C4 at a nonexistent non-MP4 path (showing the existence
error wins over the extension error). -/
theorem reverse_video_rejects_missing_witness :
    reverse_video (fun _ _ => Except.ok ⟨true, [], []⟩) (fun _ => false)
        (strBytes "nonexistent.txt") =
      (.err (.InvalidInput "Input file does not exist"), []) ∧
    (RPath.extension (strBytes "nonexistent.txt")).bind to_str ≠ some "mp4" :=
  ⟨reverse_video_rejects_missing (fun _ _ => Except.ok ⟨true, [], []⟩) (fun _ => false)
      (strBytes "nonexistent.txt") rfl,
   by decide⟩

/-- C5: for a valid input, a probe that fails to launch yields
`FFmpegNotFound` with only the probe invocation recorded (the
transformation is never attempted); and whenever the probe launches,
`check_ffmpeg` accepts it regardless of the probe's exit status. -/
theorem reverse_video_probe_failure (runner : RunnerFn) (fs : List Nat → Bool)
    (input : List Nat) (e : Nat) (probeOut : Output)
    (hfs : fs input = true)
    (hext : (RPath.extension input).bind to_str = some "mp4") :
    (runner "ffmpeg" ["-version"] = .error e →
      reverse_video runner fs input =
        (.err .FFmpegNotFound, [⟨"ffmpeg", ["-version"]⟩])) ∧
    (runner "ffmpeg" ["-version"] = .ok probeOut → (check_ffmpeg runner).1 = .ok ()) := by
  constructor
  · intro hprobe
    simp [reverse_video, hfs, hext, check_ffmpeg, hprobe]
  · intro hprobe
    simp [check_ffmpeg, hprobe]

/-- Witness for C5: a runner whose every launch fails, and (for the second
part) a runner that launches with a failing exit status. -/
theorem reverse_video_probe_failure_witness :
    reverse_video (fun _ _ => Except.error 2) (fun _ => true) (strBytes "test.mp4") =
      (.err .FFmpegNotFound, [⟨"ffmpeg", ["-version"]⟩]) ∧
    (check_ffmpeg (fun _ _ => Except.ok ⟨false, [], []⟩)).1 = .ok () :=
  ⟨(reverse_video_probe_failure (fun _ _ => Except.error 2) (fun _ => true)
      (strBytes "test.mp4") 2 ⟨false, [], []⟩ rfl (by decide)).1 rfl,
   (reverse_video_probe_failure (fun _ _ => Except.ok ⟨false, [], []⟩) (fun _ => true)
      (strBytes "test.mp4") 2 ⟨false, [], []⟩ rfl (by decide)).2 rfl⟩

/-- C6: for a valid input with a successful probe, when the transformation
subprocess runs and exits with a non-success status, `reverse_video`
returns `ProcessingError` carrying the captured stderr bytes lossily
decoded to text. -/
theorem reverse_video_processing_error (runner : RunnerFn) (fs : List Nat → Bool)
    (input : List Nat) (probeOut res : Output) (inS outS : String)
    (hfs : fs input = true)
    (hext : (RPath.extension input).bind to_str = some "mp4")
    (hin : to_str input = some inS)
    (hout : to_str (generate_output_filename input) = some outS)
    (hprobe : runner "ffmpeg" ["-version"] = .ok probeOut)
    (hrun : runner "ffmpeg" ["-i", inS, "-vf", "reverse", "-af", "areverse", "-y", outS] = .ok res)
    (hfail : res.status_success = false) :
    reverse_video runner fs input =
      (.err (.ProcessingError (utf8Lossy res.stderr)),
       [⟨"ffmpeg", ["-version"]⟩,
        ⟨"ffmpeg", ["-i", inS, "-vf", "reverse", "-af", "areverse", "-y", outS]⟩]) := by
  simp only [reverse_video, hfs, check_ffmpeg, hprobe, hext, hin, hout, hrun, hfail]
  simp

/-- Witness for C6: the mock from the repository's own test, failing the
transformation with stderr `Conversion failed`. -/
theorem reverse_video_processing_error_witness :
    reverse_video
        (fun _ args => if args = ["-version"] then Except.ok ⟨true, [], []⟩
          else Except.ok ⟨false, [], strBytes "Conversion failed"⟩)
        (fun _ => true) (strBytes "test.mp4") =
      (.err (.ProcessingError (utf8Lossy (strBytes "Conversion failed"))),
       [⟨"ffmpeg", ["-version"]⟩,
        ⟨"ffmpeg", ["-i", "test.mp4", "-vf", "reverse", "-af", "areverse", "-y", "test-rev.mp4"]⟩]) ∧
    utf8Lossy (strBytes "Conversion failed") = "Conversion failed" :=
  ⟨reverse_video_processing_error
      (fun _ args => if args = ["-version"] then Except.ok ⟨true, [], []⟩
        else Except.ok ⟨false, [], strBytes "Conversion failed"⟩)
      (fun _ => true) (strBytes "test.mp4") ⟨true, [], []⟩
      ⟨false, [], strBytes "Conversion failed"⟩ "test.mp4" "test-rev.mp4"
      rfl (by decide) (by decide) (by decide) rfl rfl rfl,
   by decide⟩

/-- C7: for a valid input with a successful probe, when the transformation
subprocess itself fails to launch, `reverse_video` returns `IoError`
wrapping the underlying error, which is distinct from `FFmpegNotFound`. -/
theorem reverse_video_spawn_error_io (runner : RunnerFn) (fs : List Nat → Bool)
    (input : List Nat) (probeOut : Output) (e : Nat) (inS outS : String)
    (hfs : fs input = true)
    (hext : (RPath.extension input).bind to_str = some "mp4")
    (hin : to_str input = some inS)
    (hout : to_str (generate_output_filename input) = some outS)
    (hprobe : runner "ffmpeg" ["-version"] = .ok probeOut)
    (hrun : runner "ffmpeg" ["-i", inS, "-vf", "reverse", "-af", "areverse", "-y", outS] =
      .error e) :
    reverse_video runner fs input =
      (.err (.IoError e),
       [⟨"ffmpeg", ["-version"]⟩,
        ⟨"ffmpeg", ["-i", inS, "-vf", "reverse", "-af", "areverse", "-y", outS]⟩]) ∧
    VideoError.IoError e ≠ VideoError.FFmpegNotFound := by
  constructor
  · simp only [reverse_video, hfs, check_ffmpeg, hprobe, hext, hin, hout, hrun]
    simp
  · intro h
    exact VideoError.noConfusion h

/-- Witness for C7: probe launches, transformation spawn fails with code 3. -/
theorem reverse_video_spawn_error_io_witness :
    reverse_video
        (fun _ args => if args = ["-version"] then Except.ok ⟨true, [], []⟩
          else Except.error 3)
        (fun _ => true) (strBytes "test.mp4") =
      (.err (.IoError 3),
       [⟨"ffmpeg", ["-version"]⟩,
        ⟨"ffmpeg", ["-i", "test.mp4", "-vf", "reverse", "-af", "areverse", "-y", "test-rev.mp4"]⟩]) :=
  (reverse_video_spawn_error_io
      (fun _ args => if args = ["-version"] then Except.ok ⟨true, [], []⟩
        else Except.error 3)
      (fun _ => true) (strBytes "test.mp4") ⟨true, [], []⟩ 3 "test.mp4" "test-rev.mp4"
      rfl (by decide) (by decide) (by decide) rfl rfl).1

/-- C8: for every nonempty argument vector whose length is not two (the
usage message interpolates the program name `args[0]`, so one is
presupposed), `run_with_reverser` returns the usage error and performs no
runner invocation, hence never reaches the reverser. -/
theorem run_with_reverser_usage (runner : RunnerFn) (fs : List Nat → Bool)
    (a0 : String) (rest : List String)
    (hlen : (a0 :: rest).length ≠ 2) :
    run_with_reverser runner fs (a0 :: rest) =
      (.err ("Usage: " ++ a0 ++ " <input_mp4_file>"), []) := by
  cases rest with
  | nil => rfl
  | cons x t =>
    cases t with
    | nil => simp at hlen
    | cons y t2 => rfl

/-- Witness for C8 at the one-element vector `["mdmp4rev"]`, matching the
repository's `test_run_usage`. -/
theorem run_with_reverser_usage_witness :
    run_with_reverser (fun _ _ => Except.ok ⟨true, [], []⟩) (fun _ => true) ["mdmp4rev"] =
      (.err ("Usage: " ++ "mdmp4rev" ++ " <input_mp4_file>"), []) ∧
    "Usage: " ++ "mdmp4rev" ++ " <input_mp4_file>" = "Usage: mdmp4rev <input_mp4_file>" :=
  ⟨run_with_reverser_usage (fun _ _ => Except.ok ⟨true, [], []⟩) (fun _ => true)
      "mdmp4rev" [] (by decide),
   by decide⟩

/-- C9: there exist inputs passing both validations (existing, extension
exactly `mp4`) on which `reverse_video` panics instead of returning a
`VideoError`: a path whose bytes are not valid UTF-8 makes
`to_str().unwrap()` panic while building the transformation arguments. -/
theorem reverse_video_panic_non_utf8 :
    ∃ (runner : RunnerFn) (fs : List Nat → Bool) (input : List Nat),
      fs input = true ∧
      (RPath.extension input).bind to_str = some "mp4" ∧
      to_str input = none ∧
      (reverse_video runner fs input).1 = Outcome.panicked :=
  ⟨fun _ _ => Except.ok ⟨true, [], []⟩, fun _ => true, [255, 46, 109, 112, 52],
   rfl, by decide, by decide, by decide⟩

/-- C10: on the empty argument vector, `run_with_reverser` panics (the
usage message formats `args[0]`) rather than returning the usage error. -/
theorem run_with_reverser_empty_args_panic (runner : RunnerFn) (fs : List Nat → Bool) :
    run_with_reverser runner fs [] = (.panicked, []) := rfl
/-! ### Helper lemmas about the path model (towards claim C2) -/

theorem splitBy_ne_nil (sep : Nat) (xs : List Nat) : splitBy sep xs ≠ [] := by
  cases xs with
  | nil => simp [splitBy]
  | cons b rest =>
    simp only [splitBy]
    split <;> simp

theorem splitBy_no_sep (sep : Nat) (xs : List Nat) (h : sep ∉ xs) :
    splitBy sep xs = [xs] := by
  induction xs with
  | nil => simp [splitBy]
  | cons b rest ih =>
    simp only [List.mem_cons, not_or] at h
    have hb : ¬ (b = sep) := fun hh => h.1 hh.symm
    simp [splitBy, hb, ih h.2]

theorem splitBy_append (sep : Nat) (xs ys : List Nat) :
    splitBy sep (xs ++ sep :: ys) = splitBy sep xs ++ splitBy sep ys := by
  induction xs with
  | nil => simp [splitBy]
  | cons b bs ih =>
    by_cases hb : b = sep
    · subst hb
      simp [splitBy, ih]
    · obtain ⟨p, ps, hps⟩ : ∃ p ps, splitBy sep bs = p :: ps := by
        cases h : splitBy sep bs with
        | nil => exact absurd h (splitBy_ne_nil sep bs)
        | cons p ps => exact ⟨p, ps, rfl⟩
      simp [splitBy, hb, ih, hps]

theorem head?_append_of_left_ne_nil {α : Type} (l l2 : List α) (h : l ≠ []) :
    (l ++ l2).head? = l.head? := by
  cases l with
  | nil => exact absurd rfl h
  | cons b t => rfl

theorem eq_concat_of_getLast_eq (l : List Nat) (a : Nat) (h : l.getLast? = some a) :
    ∃ t, l = t ++ [a] := by
  induction l with
  | nil => simp at h
  | cons b bs ih =>
    cases bs with
    | nil =>
      simp [List.getLast?] at h
      exact ⟨[], by simp [h]⟩
    | cons c cs =>
      rw [List.getLast?_cons_cons] at h
      obtain ⟨t, ht⟩ := ih h
      exact ⟨b :: t, by simp [ht]⟩

theorem parseComponents_append_sep_piece (p n : List Nat) (hp : p ≠ [])
    (h47 : 47 ∉ n) (hcomp : RPath.pieceToComp n = some (.normal n)) :
    RPath.parseComponents (p ++ 47 :: n) = RPath.parseComponents p ++ [RPath.PComp.normal n] := by
  unfold RPath.parseComponents
  rw [splitBy_append, splitBy_no_sep 47 n h47]
  rw [head?_append_of_left_ne_nil _ _ (splitBy_ne_nil 47 p)]
  have hr : RPath.hasRoot (p ++ 47 :: n) = RPath.hasRoot p := by
    unfold RPath.hasRoot
    rw [head?_append_of_left_ne_nil _ _ hp]
  rw [hr, List.filterMap_append]
  simp [hcomp]

theorem parseComponents_drop_trailing_sep (t : List Nat) (ht : t ≠ []) :
    RPath.parseComponents (t ++ [47]) = RPath.parseComponents t := by
  unfold RPath.parseComponents
  have e : t ++ [47] = t ++ 47 :: [] := rfl
  rw [e, splitBy_append]
  rw [head?_append_of_left_ne_nil _ _ (splitBy_ne_nil 47 t)]
  have hr : RPath.hasRoot (t ++ 47 :: []) = RPath.hasRoot t := by
    unfold RPath.hasRoot
    rw [head?_append_of_left_ne_nil _ _ ht]
  rw [hr, List.filterMap_append]
  simp [splitBy, RPath.pieceToComp]

theorem parseComponents_push (p n : List Nat) (hn : n ≠ []) (h47 : 47 ∉ n)
    (hdot : n ≠ [46]) (hdd : n ≠ [46, 46]) :
    RPath.parseComponents (RPath.push p n) = RPath.parseComponents p ++ [RPath.PComp.normal n] := by
  have hcomp : RPath.pieceToComp n = some (.normal n) := by
    simp [RPath.pieceToComp, hn, hdot, hdd]
  have hroot : RPath.hasRoot n = false := by
    cases n with
    | nil => exact absurd rfl hn
    | cons b t =>
      have hb : b ≠ 47 := fun hb => h47 (hb ▸ List.mem_cons_self b t)
      simp [RPath.hasRoot, hb]
  by_cases hp : p = []
  · subst hp
    have hpush : RPath.push [] n = n := by simp [RPath.push, hroot]
    rw [hpush]
    have hpc : RPath.parseComponents [] = [] := by decide
    rw [hpc]
    simp [RPath.parseComponents, hroot, splitBy_no_sep 47 n h47, hdot, hcomp]
  · by_cases hlast : p.getLast? = some 47
    · obtain ⟨t, ht⟩ := eq_concat_of_getLast_eq p 47 hlast
      have hpush : RPath.push p n = p ++ n := by simp [RPath.push, hroot, hp, hlast]
      rw [hpush, ht]
      have e1 : (t ++ [47]) ++ n = t ++ 47 :: n := by simp
      rw [e1]
      by_cases htnil : t = []
      · subst htnil
        simp only [List.nil_append]
        have h2 : RPath.parseComponents [47] = [RPath.PComp.rootDir] := by decide
        rw [h2]
        simp [RPath.parseComponents, RPath.hasRoot, splitBy, splitBy_no_sep 47 n h47,
          hdot, List.filterMap_cons, hcomp,
          show RPath.pieceToComp [] = none from by decide]
      · rw [parseComponents_append_sep_piece t n htnil h47 hcomp,
          parseComponents_drop_trailing_sep t htnil]
    · have hpush : RPath.push p n = p ++ 47 :: n := by simp [RPath.push, hroot, hp, hlast]
      rw [hpush, parseComponents_append_sep_piece p n hp h47 hcomp]

theorem file_name_push (p n : List Nat) (hn : n ≠ []) (h47 : 47 ∉ n)
    (hdot : n ≠ [46]) (hdd : n ≠ [46, 46]) :
    RPath.file_name (RPath.push p n) = some n := by
  unfold RPath.file_name
  rw [parseComponents_push p n hn h47 hdot hdd, List.getLast?_concat]

theorem parent_push (p n : List Nat) (hn : n ≠ []) (h47 : 47 ∉ n)
    (hdot : n ≠ [46]) (hdd : n ≠ [46, 46]) :
    RPath.parent (RPath.push p n) = some (RPath.renderComps (RPath.parseComponents p)) := by
  unfold RPath.parent
  rw [parseComponents_push p n hn h47 hdot hdd, List.getLast?_concat, List.dropLast_concat]

theorem rsplitFileAtDot_no_dot (f : List Nat) (h46 : 46 ∉ f) :
    RPath.rsplitFileAtDot f = (none, some f) := by
  have hdd : f ≠ [46, 46] := by rintro rfl; simp at h46
  simp [RPath.rsplitFileAtDot, hdd, splitBy_no_sep 46 f h46]

theorem rsplitFileAtDot_stem_dot_ext (stem ext : List Nat) (hstem : stem ≠ [])
    (hs46 : 46 ∉ stem) (he46 : 46 ∉ ext) :
    RPath.rsplitFileAtDot (stem ++ 46 :: ext) = (some stem, some ext) := by
  have hdd : stem ++ 46 :: ext ≠ [46, 46] := by
    cases stem with
    | nil => exact absurd rfl hstem
    | cons b t =>
      intro h
      simp only [List.cons_append, List.cons.injEq] at h
      exact hs46 (h.1 ▸ List.mem_cons_self b t)
  simp only [RPath.rsplitFileAtDot, hdd, if_false]
  rw [splitBy_append, splitBy_no_sep 46 stem hs46, splitBy_no_sep 46 ext he46]
  simp [joinBy, hstem]

theorem trimTail_of_getLast (p : List Nat) (b : Nat) (h : p.getLast? = some b)
    (h47 : b ≠ 47) (h46 : b ≠ 46) : RPath.trimTail p = p := by
  obtain ⟨t, ht⟩ := eq_concat_of_getLast_eq p b h
  subst ht
  simp [RPath.trimTail, RPath.trimTailRev, h47, h46]

theorem push_append (p n t2 : List Nat) (hn : n ≠ []) (hroot : RPath.hasRoot n = false) :
    RPath.push p n ++ t2 = RPath.push p (n ++ t2) := by
  have hroot2 : RPath.hasRoot (n ++ t2) = false := by
    unfold RPath.hasRoot at hroot ⊢
    rw [head?_append_of_left_ne_nil _ _ hn]
    exact hroot
  by_cases hp : p = []
  · subst hp
    simp [RPath.push, hroot, hroot2]
  · by_cases hlast : p.getLast? = some 47
    · simp [RPath.push, hroot, hroot2, hp, hlast]
    · simp [RPath.push, hroot, hroot2, hp, hlast]

theorem push_concat_decomp (p n : List Nat) :
    ∃ t, RPath.push p n = t ++ n := by
  unfold RPath.push
  repeat' split
  · exact ⟨[], rfl⟩
  · exact ⟨[], rfl⟩
  · exact ⟨p, rfl⟩
  · exact ⟨p ++ [47], by simp⟩

/-- C2 (amended): for an input of the form `dir ++ stem ++ "." ++ ext` with
`dir` empty or ending in a separator, a nonempty stem free of separators
and dots, and a nonempty extension free of separators and dots, the path's
stem and extension are `stem` and `ext` and the derived output path is the
parent directory joined with `stem ++ "-rev" ++ "." ++ ext`.  The original
claim's quantification over every path fails when the stem contains a dot
(see the counterexample). -/
theorem generate_output_filename_no_dot_stem
    (dir stem ext : List Nat)
    (hdir : dir = [] ∨ dir.getLast? = some 47)
    (hstem : stem ≠ []) (hs46 : 46 ∉ stem) (hs47 : 47 ∉ stem)
    (hext : ext ≠ []) (he46 : 46 ∉ ext) (he47 : 47 ∉ ext) :
    RPath.file_stem (dir ++ stem ++ 46 :: ext) = some stem ∧
    RPath.extension (dir ++ stem ++ 46 :: ext) = some ext ∧
    generate_output_filename (dir ++ stem ++ 46 :: ext) =
      RPath.push ((RPath.parent (dir ++ stem ++ 46 :: ext)).getD [])
        (stem ++ [45, 114, 101, 118] ++ 46 :: ext) := by
  have hsl : 0 < stem.length := List.length_pos.mpr hstem
  have hel : 0 < ext.length := List.length_pos.mpr hext
  obtain ⟨s0, srest, hs⟩ : ∃ s0 srest, stem = s0 :: srest := by
    cases stem with
    | nil => exact absurd rfl hstem
    | cons s0 srest => exact ⟨s0, srest, rfl⟩
  have hs0 : s0 ≠ 47 := fun h => hs47 (by rw [hs]; exact h ▸ List.mem_cons_self s0 srest)
  -- facts about the file name  stem ++ 46 :: ext
  have hname_ne : stem ++ 46 :: ext ≠ [] := by simp [hs]
  have hname47 : 47 ∉ stem ++ 46 :: ext := by
    simp only [List.mem_append, List.mem_cons, not_or]
    exact ⟨hs47, by omega, he47⟩
  have hname_dot : stem ++ 46 :: ext ≠ [46] := by
    intro h
    have h2 := congrArg List.length h
    simp only [List.length_append, List.length_cons, List.length_nil] at h2
    omega
  have hname_dd : stem ++ 46 :: ext ≠ [46, 46] := by
    intro h
    have h2 := congrArg List.length h
    simp only [List.length_append, List.length_cons, List.length_nil] at h2
    omega
  have hname_root : RPath.hasRoot (stem ++ 46 :: ext) = false := by
    rw [hs]
    simp [RPath.hasRoot, hs0]
  -- the input path is  push dir (stem ++ 46 :: ext)
  have hpushdir : dir ++ stem ++ 46 :: ext = RPath.push dir (stem ++ 46 :: ext) := by
    rcases hdir with hd | hd
    · subst hd
      simp [RPath.push, hname_root]
    · have hdne : dir ≠ [] := by
        intro h
        rw [h] at hd
        simp at hd
      simp [RPath.push, hname_root, hdne, hd]
  have hpc : RPath.parseComponents (dir ++ stem ++ 46 :: ext) =
      RPath.parseComponents dir ++ [RPath.PComp.normal (stem ++ 46 :: ext)] := by
    rw [hpushdir]
    exact parseComponents_push dir _ hname_ne hname47 hname_dot hname_dd
  have hfn : RPath.file_name (dir ++ stem ++ 46 :: ext) = some (stem ++ 46 :: ext) := by
    unfold RPath.file_name
    rw [hpc, List.getLast?_concat]
  have hrsplit : RPath.rsplitFileAtDot (stem ++ 46 :: ext) = (some stem, some ext) :=
    rsplitFileAtDot_stem_dot_ext stem ext hstem hs46 he46
  have hstem_eq : RPath.file_stem (dir ++ stem ++ 46 :: ext) = some stem := by
    unfold RPath.file_stem
    rw [hfn]
    simp [hrsplit, Option.or]
  have hext_eq : RPath.extension (dir ++ stem ++ 46 :: ext) = some ext := by
    unfold RPath.extension
    rw [hfn]
    simp [hrsplit]
  have hparent : RPath.parent (dir ++ stem ++ 46 :: ext) =
      some (RPath.renderComps (RPath.parseComponents dir)) := by
    unfold RPath.parent
    rw [hpc, List.getLast?_concat, List.dropLast_concat]
  refine ⟨hstem_eq, hext_eq, ?_⟩
  -- facts about the new name  stem ++ "-rev"
  have hnn_ne : stem ++ [45, 114, 101, 118] ≠ [] := by simp
  have hnn47 : 47 ∉ stem ++ [45, 114, 101, 118] := by
    simp only [List.mem_append, not_or]
    exact ⟨hs47, by decide⟩
  have hnn46 : 46 ∉ stem ++ [45, 114, 101, 118] := by
    simp only [List.mem_append, not_or]
    exact ⟨hs46, by decide⟩
  have hnn_dot : stem ++ [45, 114, 101, 118] ≠ [46] := by
    intro h
    have h2 := congrArg List.length h
    simp [List.length_append] at h2
  have hnn_dd : stem ++ [45, 114, 101, 118] ≠ [46, 46] := by
    intro h
    have h2 := congrArg List.length h
    simp [List.length_append] at h2
  have hnn_root : RPath.hasRoot (stem ++ [45, 114, 101, 118]) = false := by
    rw [hs]
    simp [RPath.hasRoot, hs0]
  have hwfn : RPath.with_file_name (dir ++ stem ++ 46 :: ext) (stem ++ [45, 114, 101, 118]) =
      RPath.push (RPath.renderComps (RPath.parseComponents dir)) (stem ++ [45, 114, 101, 118]) := by
    unfold RPath.with_file_name
    rw [hfn, hparent]
    simp
  have hq_fn : RPath.file_name
      (RPath.push (RPath.renderComps (RPath.parseComponents dir)) (stem ++ [45, 114, 101, 118])) =
      some (stem ++ [45, 114, 101, 118]) :=
    file_name_push _ _ hnn_ne hnn47 hnn_dot hnn_dd
  have hq_last : (RPath.push (RPath.renderComps (RPath.parseComponents dir))
      (stem ++ [45, 114, 101, 118])).getLast? = some 118 := by
    obtain ⟨t, htq⟩ := push_concat_decomp (RPath.renderComps (RPath.parseComponents dir))
      (stem ++ [45, 114, 101, 118])
    rw [htq]
    have e : t ++ (stem ++ [45, 114, 101, 118]) = (t ++ stem ++ [45, 114, 101]) ++ [118] := by
      simp
    rw [e, List.getLast?_concat]
  have hq_trim : RPath.trimTail
      (RPath.push (RPath.renderComps (RPath.parseComponents dir)) (stem ++ [45, 114, 101, 118])) =
      RPath.push (RPath.renderComps (RPath.parseComponents dir)) (stem ++ [45, 114, 101, 118]) :=
    trimTail_of_getLast _ 118 hq_last (by decide) (by decide)
  have hset : RPath.set_extension
      (RPath.push (RPath.renderComps (RPath.parseComponents dir)) (stem ++ [45, 114, 101, 118])) ext =
      RPath.push (RPath.renderComps (RPath.parseComponents dir)) (stem ++ [45, 114, 101, 118]) ++
        46 :: ext := by
    unfold RPath.set_extension
    rw [hq_fn]
    simp only [rsplitFileAtDot_no_dot _ hnn46, Option.getD_some, Option.getD_none]
    rw [hq_trim]
    simp [List.take_length, hext]
  -- assemble
  simp only [generate_output_filename, hstem_eq, hext_eq, Option.getD_some]
  rw [hwfn, hset, hparent]
  simp only [Option.getD_some]
  rw [push_append _ _ (46 :: ext) hnn_ne hnn_root]


/-- C2 counterexample: for the input `a.b.c` (stem `a.b`, extension `c`),
the claim predicts `a.b-rev.c`, but `set_extension` treats `b-rev` as the
extension of the intermediate name `a.b-rev` and replaces it, producing
`a.c`. -/
theorem generate_output_filename_dotted_stem_cex :
    generate_output_filename (strBytes "a.b.c") = strBytes "a.c" ∧
    generate_output_filename (strBytes "a.b.c") ≠ strBytes "a.b-rev.c" := by
  decide

/-- Witness for C2 (amended) at `a/b/clip.mp4`, plus the two concrete
examples named by the claim. -/
theorem generate_output_filename_no_dot_stem_witness :
    ((strBytes "a/b/").getLast? = some 47 ∧ strBytes "clip" ≠ [] ∧
      46 ∉ strBytes "clip" ∧ strBytes "mp4" ≠ []) ∧
    generate_output_filename (strBytes "a/b/" ++ strBytes "clip" ++ 46 :: strBytes "mp4") =
      RPath.push
        ((RPath.parent (strBytes "a/b/" ++ strBytes "clip" ++ 46 :: strBytes "mp4")).getD [])
        (strBytes "clip" ++ [45, 114, 101, 118] ++ 46 :: strBytes "mp4") ∧
    generate_output_filename (strBytes "a/b/clip.mp4") = strBytes "a/b/clip-rev.mp4" ∧
    generate_output_filename (strBytes "test.mp4") = strBytes "test-rev.mp4" :=
  ⟨⟨by decide, by decide, by decide, by decide⟩,
   (generate_output_filename_no_dot_stem (strBytes "a/b/") (strBytes "clip") (strBytes "mp4")
      (Or.inr (by decide)) (by decide) (by decide) (by decide) (by decide) (by decide)
      (by decide)).2.2,
   by decide, by decide⟩
